import Mathlib

/-!
Verification of the Caffeinate maintenance scripts: the Android resource
stripper (app/src/debug/res/strip.py) and the two tag-sync scripts
(update_publish_tags.py and git_hooks/update_publish_tags.py).

The scripts are embedded shallowly: each script's control flow becomes a
pure Lean function from its inputs (argv, the text file it reads, the git
tag listing output, the loaded YAML document) to an outcome record holding
the resulting file content, whether the file was written, and the exit code.
-/

namespace Caffeinate

/-- Check whether `needle` is a prefix of the second list (character-wise). -/
def isPrefixChars : List Char → List Char → Bool
  | [], _ => true
  | _ :: _, [] => false
  | a :: as, b :: bs => a = b && isPrefixChars as bs

/-- Python's `needle in haystack` substring test on character lists:
`needle` occurs as a contiguous run somewhere in the haystack. -/
def containsChars (needle : List Char) : List Char → Bool
  | [] => isPrefixChars needle []
  | c :: rest => isPrefixChars needle (c :: rest) || containsChars needle rest

/-- The marker substring of strip.py: `app_name`. -/
def appNameMarker : String := "app_name"

/-- The closing-tag substring of strip.py. -/
def closingTag : String := "</resources>"

/-- `'app_name' in line` from strip.py. -/
def hasAppName (line : String) : Bool :=
  containsChars appNameMarker.data line.data

/-- The closing-tag containment test from strip.py. -/
def hasClosingTag (line : String) : Bool :=
  containsChars closingTag.data line.data

/-- Once deletion mode has started, strip.py keeps exactly the lines
containing `app_name` or the closing tag. -/
def keepPred (line : String) : Bool :=
  hasAppName line || hasClosingTag line

/-- The line-filter loop of strip.py: the first argument is the
`startDelete` flag. A line containing `app_name` is appended and sets the
flag; otherwise the line is appended when the flag is unset or the line
contains the closing tag. -/
def filterLines : Bool → List String → List String
  | _, [] => []
  | startDelete, line :: rest =>
    if hasAppName line then
      line :: filterLines true rest
    else if !startDelete || hasClosingTag line then
      line :: filterLines startDelete rest
    else
      filterLines startDelete rest

/-- The whole-file transformation of strip.py: the filter loop started with
`startDelete = False`. -/
def stripFile (lines : List String) : List String :=
  filterLines false lines

/-- Outcome of a run of strip.py: resulting file lines, whether the file
was written, the exit code, and whether the usage message was printed. -/
structure StripOutcome where
  fileLines : List String
  wrote : Bool
  exitCode : Nat
  printedUsage : Bool
deriving DecidableEq, Repr

/-- strip.py from its entry: `argv` is the full argument vector (program
name included, as in `sys.argv`); when its length is not 2 the script
prints the usage message and exits 93 before touching the file, otherwise
it filters the lines and writes the file back. -/
def stripScriptMain (argv : List String) (fileLines : List String) : StripOutcome :=
  if argv.length ≠ 2 then
    ⟨fileLines, false, 93, true⟩
  else
    ⟨stripFile fileLines, true, 0, false⟩

/-- The loaded workflow YAML document, as the scripts see it: the
`on.workflow_dispatch.inputs.releaseTag.options` list, plus the rest of
the document (content, formatting, quoting, comments) held abstractly;
the ruamel round-trip loader/dumper preserves the rest verbatim. -/
structure YamlDoc where
  options : List String
  rest : String
deriving DecidableEq, Repr

/-- Outcome of the sync portion of a tag-sync script: the document stored
in the YAML file afterwards, whether the file was written, and the exit
code. -/
structure SyncOutcome where
  fileDoc : YamlDoc
  wrote : Bool
  exitCode : Nat
deriving DecidableEq, Repr

/-- The sync logic of git_hooks/update_publish_tags.py (repository-object
variant): when the loaded options differ from the tag list it overwrites
the options, writes the file and exits 0; otherwise it leaves the file
alone and exits 93. -/
def syncRepoVariant (tags : List String) (doc : YamlDoc) : SyncOutcome :=
  if doc.options ≠ tags then
    ⟨⟨tags, doc.rest⟩, true, 0⟩
  else
    ⟨doc, false, 93⟩

/-- The sync logic of update_publish_tags.py (shell-invocation variant):
same comparison and update, but the script falls off the end in both
branches, so it exits 0 either way. -/
def syncShellVariant (tags : List String) (doc : YamlDoc) : SyncOutcome :=
  if doc.options ≠ tags then
    ⟨⟨tags, doc.rest⟩, true, 0⟩
  else
    ⟨doc, false, 0⟩

/-- Python's `str.strip()`: drop leading and trailing whitespace. -/
def pyStrip (s : List Char) : List Char :=
  ((s.dropWhile Char.isWhitespace).reverse.dropWhile Char.isWhitespace).reverse

/-- Python's `str.split(sep)` for a one-character separator: splitting at
every occurrence, yielding one more part than there are separators; on the
empty string it yields `[""]`. -/
def pySplitOnChar (sep : Char) : List Char → List (List Char)
  | [] => [[]]
  | c :: cs =>
    match pySplitOnChar sep cs with
    | [] => [[]]
    | p :: ps => if c = sep then [] :: p :: ps else (c :: p) :: ps

/-- `tags = <git tag output>.strip().split('\n')` — shared verbatim by
both tag-sync variants. -/
def computeTags (gitOutput : String) : List String :=
  (pySplitOnChar (Char.ofNat 10) (pyStrip gitOutput.data)).map List.asString

/-- A full run of a tag-sync script from its entry, argv check included. -/
structure MainOutcome where
  fileDoc : YamlDoc
  wrote : Bool
  exitCode : Nat
  printedUsage : Bool
deriving DecidableEq, Repr

/-- git_hooks/update_publish_tags.py from its entry: usage check on
`sys.argv`, then tag computation from the git output and the sync logic. -/
def repoVariantMain (argv : List String) (gitOutput : String) (doc : YamlDoc) : MainOutcome :=
  if argv.length ≠ 2 then
    ⟨doc, false, 93, true⟩
  else
    let r := syncRepoVariant (computeTags gitOutput) doc
    ⟨r.fileDoc, r.wrote, r.exitCode, false⟩

/-- update_publish_tags.py from its entry: same shape, shell-variant sync. -/
def shellVariantMain (argv : List String) (gitOutput : String) (doc : YamlDoc) : MainOutcome :=
  if argv.length ≠ 2 then
    ⟨doc, false, 93, true⟩
  else
    let r := syncShellVariant (computeTags gitOutput) doc
    ⟨r.fileDoc, r.wrote, r.exitCode, false⟩

/-- Sample lines for concrete evaluations. -/
def resOpen : String := "<resources>"

/-- The closing line of a strings.xml file. -/
def resClose : String := "</resources>"

/-- A line containing the `app_name` marker. -/
def markerLine : String := "<string name=app_name>Caffeinate</string>"

/-- A line that also contains `app_name`, as `app_name_long` does. -/
def secondMarkerLine : String := "<string name=app_name_long>Caffeinate Full</string>"

/-- An ordinary resource line containing neither marker. -/
def plainLine : String := "<string name=other>Zzz</string>"

/-- A line after the closing tag containing neither marker. -/
def trailingLine : String := "<!-- trailing comment -->"

/-- The empty git tag listing output. -/
def emptyGitOutput : String := ""

/-! ## Helper lemmas about the strip.py line filter -/

/-- With the flag already set, the filter loop keeps exactly the lines
containing `app_name` or the closing tag. -/
theorem filterLines_true_eq_filter (l : List String) :
    filterLines true l = l.filter keepPred := by
  induction l with
  | nil => rfl
  | cons a rest ih =>
    cases ha : hasAppName a with
    | true => simp [filterLines, List.filter_cons, keepPred, ha, ih]
    | false =>
      cases hc : hasClosingTag a with
      | true => simp [filterLines, List.filter_cons, keepPred, ha, hc, ih]
      | false => simp [filterLines, List.filter_cons, keepPred, ha, hc, ih]

/-- Full characterisation of strip.py's file transformation: the lines
before the first `app_name` line are kept as they are, and from the first
`app_name` line on only lines containing `app_name` or the closing tag
survive. -/
theorem stripFile_eq_takeWhile_filter (l : List String) :
    stripFile l = l.takeWhile (fun s => !hasAppName s)
      ++ (l.dropWhile (fun s => !hasAppName s)).filter keepPred := by
  induction l with
  | nil => rfl
  | cons a rest ih =>
    cases ha : hasAppName a with
    | true =>
      simp [stripFile, filterLines, ha, List.takeWhile_cons, List.dropWhile_cons,
        List.filter_cons, keepPred, filterLines_true_eq_filter]
    | false =>
      simp only [stripFile] at ih
      simp [stripFile, filterLines, ha, List.takeWhile_cons, List.dropWhile_cons, ih]

/-- A markerless block at the start of the file passes through the filter
loop unchanged, leaving the flag unset. -/
theorem filterLines_false_append_markerless (l1 : List String)
    (h : ∀ l ∈ l1, hasAppName l = false) (l2 : List String) :
    filterLines false (l1 ++ l2) = l1 ++ filterLines false l2 := by
  induction l1 with
  | nil => rfl
  | cons a rest ih =>
    have ha : hasAppName a = false := h a (by simp)
    simp only [List.cons_append, filterLines, ha]
    simp [ih fun l hl => h l (by simp [hl])]

/-- With the flag set, the filter loop distributes over append. -/
theorem filterLines_true_append (l1 l2 : List String) :
    filterLines true (l1 ++ l2) = filterLines true l1 ++ filterLines true l2 := by
  simp [filterLines_true_eq_filter, List.filter_append]

/-- Once a block contains an `app_name` line, everything after the block
is filtered with the flag set. -/
theorem filterLines_false_append_of_marker (l1 : List String)
    (h : ∃ x ∈ l1, hasAppName x = true) (l2 : List String) :
    filterLines false (l1 ++ l2) = filterLines false l1 ++ filterLines true l2 := by
  induction l1 with
  | nil => rcases h with ⟨x, hx, _⟩; cases hx
  | cons a rest ih =>
    cases ha : hasAppName a with
    | true =>
      simp only [List.cons_append, filterLines, ha, if_true]
      simp [filterLines_true_append]
    | false =>
      rcases h with ⟨x, hx, hxm⟩
      rcases List.mem_cons.mp hx with rfl | hx'
      · rw [hxm] at ha; cases ha
      · simp only [List.cons_append, filterLines, ha]
        simp [ih ⟨x, hx', hxm⟩]

/-- Python's single-character split never returns the empty list. -/
theorem pySplitOnChar_ne_nil (sep : Char) (l : List Char) :
    pySplitOnChar sep l ≠ [] := by
  induction l with
  | nil => simp [pySplitOnChar]
  | cons c cs ih =>
    cases hm : pySplitOnChar sep cs with
    | nil => exact absurd hm ih
    | cons p ps =>
      simp only [pySplitOnChar, hm]
      split <;> simp

/-! ## Claims about the resource stripper -/

/-- Claim C2, counterexample: a line strictly between the first marker
line and the closing-tag line is retained by the stripper when it itself
contains `app_name` (as `app_name_long` does), so the claim that every
strictly-between line is removed is false. -/
theorem stripC2cex :
    hasAppName resOpen = false ∧ hasAppName markerLine = true ∧
    hasAppName secondMarkerLine = true ∧ hasClosingTag secondMarkerLine = false ∧
    hasClosingTag resClose = true ∧
    stripFile [resOpen, markerLine, secondMarkerLine, resClose]
      = [resOpen, markerLine, secondMarkerLine, resClose] := by
  decide

/-- Claim C2 (amended): when the first `app_name` marker line is later
followed by a closing-tag line (the first one after it), every line
strictly between them that does not itself contain `app_name` is removed,
lines between them containing `app_name` are retained, and the marker line
and the closing-tag line are retained verbatim. -/
theorem stripC2 (pre mid post : List String) (m c : String)
    (hm : hasAppName m = true)
    (hc : hasClosingTag c = true)
    (hpre : ∀ l ∈ pre, hasAppName l = false)
    (hmid : ∀ l ∈ mid, hasClosingTag l = false) :
    stripFile (pre ++ (m :: (mid ++ (c :: post))))
      = pre ++ (m :: (mid.filter hasAppName ++ (c :: post.filter keepPred))) := by
  unfold stripFile
  rw [filterLines_false_append_markerless pre hpre]
  have h1 : filterLines false (m :: (mid ++ (c :: post)))
      = m :: filterLines true (mid ++ (c :: post)) := by
    simp [filterLines, hm]
  rw [h1, filterLines_true_eq_filter, List.filter_append]
  have h2 : mid.filter keepPred = mid.filter hasAppName :=
    List.filter_congr fun l hl => by simp [keepPred, hmid l hl]
  have h3 : keepPred c = true := by simp [keepPred, hc]
  simp [h2, List.filter_cons, h3]

/-- Claim C2, witness: on `[<resources>, marker, plain, </resources>,
trailing]` the amended statement yields exactly
`[<resources>, marker, </resources>]`. -/
theorem stripC2witness :
    stripFile [resOpen, markerLine, plainLine, resClose, trailingLine]
      = [resOpen, markerLine, resClose] := by
  have h := stripC2 [resOpen] [plainLine] [trailingLine] markerLine resClose
    (by decide) (by decide) (by decide) (by decide)
  have e1 : ([resOpen] ++ (markerLine :: ([plainLine] ++ (resClose :: [trailingLine])))
      : List String) = [resOpen, markerLine, plainLine, resClose, trailingLine] := rfl
  have e2 : ([resOpen] ++ (markerLine :: ([plainLine].filter hasAppName
      ++ (resClose :: [trailingLine].filter keepPred)))
      : List String) = [resOpen, markerLine, resClose] := by decide
  rw [e1, e2] at h
  exact h

/-- Claim C4: the stripper's line filter is idempotent — applying it to
its own output changes nothing. -/
theorem stripC4 (lines : List String) :
    stripFile (stripFile lines) = stripFile lines := by
  induction lines with
  | nil => rfl
  | cons a rest ih =>
    cases ha : hasAppName a with
    | true =>
      have h1 : stripFile (a :: rest) = a :: rest.filter keepPred := by
        simp [stripFile, filterLines, ha, filterLines_true_eq_filter]
      rw [h1]
      simp [stripFile, filterLines, ha, filterLines_true_eq_filter,
        List.filter_filter]
    | false =>
      have h1 : stripFile (a :: rest) = a :: stripFile rest := by
        simp [stripFile, filterLines, ha]
      rw [h1]
      have h2 : stripFile (a :: stripFile rest) = a :: stripFile (stripFile rest) := by
        simp [stripFile, filterLines, ha]
      rw [h2, ih]

/-- Claim C5: every line preceding the first line that contains `app_name`
appears unchanged and in order at the front of the stripper's output. -/
theorem stripC5 (lines : List String) :
    lines.takeWhile (fun s => !hasAppName s) <+: stripFile lines :=
  ⟨(lines.dropWhile (fun s => !hasAppName s)).filter keepPred,
    (stripFile_eq_takeWhile_filter lines).symm⟩

/-- Claim C6, counterexample: a line after the closing-tag line that
contains neither marker is dropped, because deletion mode persists past
the closing tag; the claim that every line after the closing tag is kept
is false. -/
theorem stripC6cex :
    hasAppName markerLine = true ∧ hasClosingTag resClose = true ∧
    hasAppName plainLine = false ∧ hasClosingTag plainLine = false ∧
    stripFile [markerLine, resClose, plainLine] = [markerLine, resClose] := by
  decide

/-- Claim C6 (amended): once a marker line has appeared, deletion mode
persists past the closing-tag line: the output is the stripped file up to
and including the closing-tag line, followed by exactly those later lines
that contain `app_name` or `</resources>` — not by all of them. -/
theorem stripC6 (pre mid post : List String) (m c : String)
    (hm : hasAppName m = true) (_hc : hasClosingTag c = true) :
    stripFile (pre ++ (m :: (mid ++ (c :: post))))
      = stripFile (pre ++ (m :: (mid ++ [c]))) ++ post.filter keepPred := by
  have h1 : pre ++ (m :: (mid ++ (c :: post)))
      = (pre ++ (m :: (mid ++ [c]))) ++ post := by simp
  rw [h1]
  unfold stripFile
  rw [filterLines_false_append_of_marker (pre ++ (m :: (mid ++ [c])))
    ⟨m, by simp, hm⟩ post, filterLines_true_eq_filter]

/-- Claim C6, witness: with one trailing line after the closing tag, the
amended statement evaluates to the stripped head with the trailing line
filtered away. -/
theorem stripC6witness :
    stripFile [resOpen, markerLine, resClose, trailingLine]
      = stripFile [resOpen, markerLine, resClose] ++ [trailingLine].filter keepPred := by
  have h := stripC6 [resOpen] [] [trailingLine] markerLine resClose (by decide) (by decide)
  have e1 : ([resOpen] ++ (markerLine :: (([] : List String) ++ (resClose :: [trailingLine])))
      : List String) = [resOpen, markerLine, resClose, trailingLine] := rfl
  have e2 : ([resOpen] ++ (markerLine :: (([] : List String) ++ [resClose]))
      : List String) = [resOpen, markerLine, resClose] := rfl
  rw [e1, e2] at h
  exact h

/-- Claim C10: every line containing `app_name` — not only the first —
appears in the stripper's output, wherever it sits in the input. -/
theorem stripC10 (lines : List String) (l : String)
    (hmem : l ∈ lines) (hl : hasAppName l = true) : l ∈ stripFile lines := by
  rw [stripFile_eq_takeWhile_filter]
  have hsplit : lines.takeWhile (fun s => !hasAppName s)
      ++ lines.dropWhile (fun s => !hasAppName s) = lines :=
    List.takeWhile_append_dropWhile _ _
  rw [← hsplit] at hmem
  rcases List.mem_append.mp hmem with h | h
  · have := List.mem_takeWhile_imp h
    rw [hl] at this
    cases this
  · exact List.mem_append.mpr (Or.inr (List.mem_filter.mpr ⟨h, by simp [keepPred, hl]⟩))

/-- Claim C10, witness: the `app_name_long` line strictly between the
first marker line and the closing tag is in the output. -/
theorem stripC10witness :
    secondMarkerLine ∈ stripFile [resOpen, markerLine, secondMarkerLine, resClose] :=
  stripC10 [resOpen, markerLine, secondMarkerLine, resClose] secondMarkerLine
    (by decide) (by decide)

/-! ## Claims about the tag-sync scripts -/

/-- Claim C1: when the loaded options list differs from the computed tag
list, either variant sets the options to exactly the new tag list,
preserves the rest of the document, and exits 0. -/
theorem syncC1 (tags : List String) (doc : YamlDoc) (h : doc.options ≠ tags) :
    (syncRepoVariant tags doc).fileDoc.options = tags ∧
    (syncRepoVariant tags doc).fileDoc.rest = doc.rest ∧
    (syncRepoVariant tags doc).exitCode = 0 ∧
    (syncShellVariant tags doc).fileDoc.options = tags ∧
    (syncShellVariant tags doc).fileDoc.rest = doc.rest ∧
    (syncShellVariant tags doc).exitCode = 0 := by
  simp [syncRepoVariant, syncShellVariant, h]

/-- Claim C1, witness: updating options `[v1.1, v1.0]` to tags
`[v2.0, v1.1, v1.0]`. -/
theorem syncC1witness :
    (syncRepoVariant ["v2.0", "v1.1", "v1.0"] ⟨["v1.1", "v1.0"], "# doc"⟩).fileDoc.options
        = ["v2.0", "v1.1", "v1.0"] ∧
    (syncRepoVariant ["v2.0", "v1.1", "v1.0"] ⟨["v1.1", "v1.0"], "# doc"⟩).fileDoc.rest
        = (⟨["v1.1", "v1.0"], "# doc"⟩ : YamlDoc).rest ∧
    (syncRepoVariant ["v2.0", "v1.1", "v1.0"] ⟨["v1.1", "v1.0"], "# doc"⟩).exitCode = 0 ∧
    (syncShellVariant ["v2.0", "v1.1", "v1.0"] ⟨["v1.1", "v1.0"], "# doc"⟩).fileDoc.options
        = ["v2.0", "v1.1", "v1.0"] ∧
    (syncShellVariant ["v2.0", "v1.1", "v1.0"] ⟨["v1.1", "v1.0"], "# doc"⟩).fileDoc.rest
        = (⟨["v1.1", "v1.0"], "# doc"⟩ : YamlDoc).rest ∧
    (syncShellVariant ["v2.0", "v1.1", "v1.0"] ⟨["v1.1", "v1.0"], "# doc"⟩).exitCode = 0 :=
  syncC1 ["v2.0", "v1.1", "v1.0"] ⟨["v1.1", "v1.0"], "# doc"⟩ (by decide)

/-- Claim C3: when the loaded options list equals the computed tag list,
neither variant writes the file (so its bytes are unchanged), the
repository-object variant exits 93, and the shell-invocation variant
exits 0. -/
theorem syncC3 (tags : List String) (doc : YamlDoc) (h : doc.options = tags) :
    (syncRepoVariant tags doc).fileDoc = doc ∧
    (syncRepoVariant tags doc).wrote = false ∧
    (syncRepoVariant tags doc).exitCode = 93 ∧
    (syncShellVariant tags doc).fileDoc = doc ∧
    (syncShellVariant tags doc).wrote = false ∧
    (syncShellVariant tags doc).exitCode = 0 := by
  simp [syncRepoVariant, syncShellVariant, h]

/-- Claim C3, witness: a document whose options already match the tags. -/
theorem syncC3witness :
    (syncRepoVariant ["v1.0"] ⟨["v1.0"], "# doc"⟩).fileDoc = ⟨["v1.0"], "# doc"⟩ ∧
    (syncRepoVariant ["v1.0"] ⟨["v1.0"], "# doc"⟩).wrote = false ∧
    (syncRepoVariant ["v1.0"] ⟨["v1.0"], "# doc"⟩).exitCode = 93 ∧
    (syncShellVariant ["v1.0"] ⟨["v1.0"], "# doc"⟩).fileDoc = ⟨["v1.0"], "# doc"⟩ ∧
    (syncShellVariant ["v1.0"] ⟨["v1.0"], "# doc"⟩).wrote = false ∧
    (syncShellVariant ["v1.0"] ⟨["v1.0"], "# doc"⟩).exitCode = 0 :=
  syncC3 ["v1.0"] ⟨["v1.0"], "# doc"⟩ (by decide)

/-- Claim C7: with any argument vector whose length is not 2 (the program
name plus one positional argument), each of the three scripts leaves its
file unchanged and unwritten, prints its usage message, and exits 93. -/
theorem usageC7 (argv fileLines : List String) (gitOutput : String) (doc : YamlDoc)
    (h : argv.length ≠ 2) :
    stripScriptMain argv fileLines = ⟨fileLines, false, 93, true⟩ ∧
    repoVariantMain argv gitOutput doc = ⟨doc, false, 93, true⟩ ∧
    shellVariantMain argv gitOutput doc = ⟨doc, false, 93, true⟩ := by
  simp [stripScriptMain, repoVariantMain, shellVariantMain, h]

/-- Claim C7, witness: an empty argument vector. -/
theorem usageC7witness :
    stripScriptMain [] [markerLine] = ⟨[markerLine], false, 93, true⟩ ∧
    repoVariantMain [] emptyGitOutput ⟨[], "# doc"⟩ = ⟨⟨[], "# doc"⟩, false, 93, true⟩ ∧
    shellVariantMain [] emptyGitOutput ⟨[], "# doc"⟩ = ⟨⟨[], "# doc"⟩, false, 93, true⟩ :=
  usageC7 [] [markerLine] emptyGitOutput ⟨[], "# doc"⟩ (by decide)

/-- Claim C8: given the same computed tag list and the same loaded
document, the shell-invocation variant produces the same resulting
document and the same write decision as the repository-object variant,
and always exits 0. -/
theorem syncC8 (tags : List String) (doc : YamlDoc) :
    (syncShellVariant tags doc).fileDoc = (syncRepoVariant tags doc).fileDoc ∧
    (syncShellVariant tags doc).wrote = (syncRepoVariant tags doc).wrote ∧
    (syncShellVariant tags doc).exitCode = 0 := by
  by_cases h : doc.options = tags <;> simp [syncRepoVariant, syncShellVariant, h]

/-- Claim C9: the tag computation shared by both variants turns empty git
output into `[""]`, never yields the empty list, and consequently after a
run of either variant's sync step with computed tags the stored options
list is never `[]`. -/
theorem tagsC9 (s : String) (doc : YamlDoc) :
    computeTags emptyGitOutput = [""] ∧
    computeTags s ≠ [] ∧
    (syncRepoVariant (computeTags s) doc).fileDoc.options ≠ [] ∧
    (syncShellVariant (computeTags s) doc).fileDoc.options ≠ [] := by
  have hne : computeTags s ≠ [] := by
    unfold computeTags
    intro hc
    rw [List.map_eq_nil_iff] at hc
    exact pySplitOnChar_ne_nil _ _ hc
  refine ⟨by decide, hne, ?_, ?_⟩ <;>
    by_cases h : doc.options = computeTags s <;>
      simp [syncRepoVariant, syncShellVariant, h, hne]

end Caffeinate
